import Mathlib

/-!
Verification of the device-notifier agent's command authorization,
execution, and encrypted audit subsystem.

The Rust sources under src/agent/src are shallowly embedded:
machine integers become Nat/Int, HashMap becomes an association list,
VecDeque becomes a List, chrono timestamps become Int unix seconds,
Instant becomes a Nat tick count, and the external cryptographic
primitives (HMAC-SHA256, AES-256-GCM seal/open, RFC3339 formatting)
become explicit function parameters, since their implementations live
in external crates (ring, hmac, chrono), not in this repository.
-/

namespace DeviceNotifier

/-! ## Generic helpers used by the embedding -/

/-- Association-list lookup modelling HashMap access with a default of
an empty Vec, as produced by entry(..).or_insert_with(Vec::new). -/
def lookupTimes (m : List (String × List Nat)) (u : String) : List Nat :=
  match m.find? (fun p => p.1 == u) with
  | some p => p.2
  | none => []

/-- Association-list update modelling writing back the mutated Vec for
key u in a HashMap: replace the value if the key exists, else add it. -/
def setTimes (m : List (String × List Nat)) (u : String) (ts : List Nat) :
    List (String × List Nat) :=
  if m.any (fun p => p.1 == u) then
    m.map (fun p => if p.1 == u then (u, ts) else p)
  else m ++ [(u, ts)]

/-! ## Data model (src/agent/src/discord.rs lines 29-52, commands.rs lines 21-35) -/

inductive CommandType where
  | lock
  | logout
  | ping
  | status
deriving DecidableEq, Repr

/-- Debug rendering of CommandType, as produced by the Rust derive. -/
def CommandType.debugFmt : CommandType → String
  | .lock => "Lock"
  | .logout => "Logout"
  | .ping => "Ping"
  | .status => "Status"

structure DiscordCommand where
  command : CommandType
  command_id : String
  authorized_user : String
  /-- unix seconds of the issued_at timestamp (chrono DateTime). -/
  timestamp : Int
  signature : String
deriving DecidableEq, Repr

structure CommandResponse where
  command_id : String
  success : Bool
  message : String
  timestamp : Int
deriving DecidableEq, Repr

/-- The configuration fields consulted by command validation and audit
logging (src/agent/src/config.rs). -/
structure Config where
  remote_commands_enabled : Bool
  allowed_users : List String
  hmac_secret : Option String
  audit_logging : Bool
deriving DecidableEq, Repr

/-! ## RateLimiter (src/agent/src/commands.rs lines 31-62) -/

structure RateLimiter where
  commands : List (String × List Nat)
  max_commands : Nat
  window_duration : Nat
deriving DecidableEq, Repr

/-- RateLimiter::can_execute (commands.rs lines 46-61).  Instants are
Nat ticks; now - window_duration is truncated subtraction, matching
Instant arithmetic whenever window_duration ≤ now (the Rust code would
panic on underflow).  Returns the admission decision together with the
updated limiter. -/
def RateLimiter.can_execute (rl : RateLimiter) (now : Nat) (user_id : String) :
    Bool × RateLimiter :=
  let window_start := now - rl.window_duration
  let user_commands := lookupTimes rl.commands user_id
  let kept := user_commands.filter (fun t => window_start < t)
  if kept.length < rl.max_commands then
    (true, { rl with commands := setTimes rl.commands user_id (kept ++ [now]) })
  else
    (false, { rl with commands := setTimes rl.commands user_id kept })

/-- Modelled from the claim's words for comparison with the source:
prune only the timestamps strictly older than now - window (keep those
with now - window ≤ t), then admit and record iff the remaining count
is below max_commands. -/
def RateLimiter.can_execute_claimed (rl : RateLimiter) (now : Nat) (user_id : String) :
    Bool × RateLimiter :=
  let window_start := now - rl.window_duration
  let user_commands := lookupTimes rl.commands user_id
  let kept := user_commands.filter (fun t => window_start ≤ t)
  if kept.length < rl.max_commands then
    (true, { rl with commands := setTimes rl.commands user_id (kept ++ [now]) })
  else
    (false, { rl with commands := setTimes rl.commands user_id kept })

/-! ## Command validation (src/agent/src/discord.rs lines 278-322) -/

/-- DiscordClient::verify_signature (discord.rs lines 312-322).  The
external primitive base64(HMAC-SHA256(secret, payload)) is the
parameter hmacBase64 (secret first, payload second); the source builds
the payload as format of command_id, authorized_user and the unix
timestamp and compares the command's signature against the encoded
mac. -/
def verify_signature (hmacBase64 : String → String → String)
    (cmd : DiscordCommand) (secret : String) : Bool :=
  let payload := cmd.command_id ++ cmd.authorized_user ++ toString cmd.timestamp
  cmd.signature == hmacBase64 secret payload

/-- DiscordClient::validate_command (discord.rs lines 278-310): the
early-return chain over policy flag, allow-list membership, timestamp
freshness (now.signed_duration_since(command_time).num_seconds() > 300
rejects), and, when an HMAC secret is configured, the signature
check. -/
def validate_command (hmacBase64 : String → String → String)
    (cfg : Config) (now : Int) (cmd : DiscordCommand) : Bool :=
  if !cfg.remote_commands_enabled then false
  else if !(cfg.allowed_users.contains cmd.authorized_user) then false
  else if now - cmd.timestamp > 300 then false
  else
    match cfg.hmac_secret with
    | some secret => if !(verify_signature hmacBase64 cmd secret) then false else true
    | none => true

/-! ## Command history (src/agent/src/commands.rs lines 21-29, 181-206) -/

structure CommandHistoryEntry where
  command_id : String
  command_type : CommandType
  authorized_user : String
  timestamp : Int
  success : Bool
  details : String
deriving DecidableEq, Repr

/-- Stable insertion into an ascending-sorted list, auxiliary to
stableSortBy. -/
def stableInsertBy (le : α → α → Bool) (x : α) : List α → List α
  | [] => [x]
  | y :: ys => if le x y then x :: y :: ys else y :: stableInsertBy le x ys

/-- Stable ascending sort, modelling Rust's stable sort_by_key. -/
def stableSortBy (le : α → α → Bool) : List α → List α
  | [] => []
  | x :: xs => stableInsertBy le x (stableSortBy le xs)

/-- CommandExecutor::store_command_history (commands.rs lines 181-206):
build the entry timestamped now, HashMap::insert keyed by command_id
(replace the value when the key exists, else add the pair), then, if
more than 1000 entries remain, sort by entry timestamp and remove the
oldest length - 1000 keys. -/
def store_command_history (history : List (String × CommandHistoryEntry)) (now : Int)
    (command_id : String) (command_type : CommandType) (user : String)
    (success : Bool) (details : String) : List (String × CommandHistoryEntry) :=
  let entry : CommandHistoryEntry := ⟨command_id, command_type, user, now, success, details⟩
  let history :=
    if history.any (fun p => p.1 == command_id) then
      history.map (fun p => if p.1 == command_id then (command_id, entry) else p)
    else history ++ [(command_id, entry)]
  if history.length > 1000 then
    let entries := stableSortBy (fun a b => decide (a.2.timestamp ≤ b.2.timestamp)) history
    let to_remove := (entries.take (history.length - 1000)).map (fun p => p.1)
    history.filter (fun p => !(to_remove.contains p.1))
  else history

/-! ## Audit storage (src/agent/src/storage.rs) -/

inductive LogSeverity where
  | info
  | warning
  | error
  | security
deriving DecidableEq, Repr

/-- Debug rendering of LogSeverity, as produced by the Rust derive. -/
def LogSeverity.debugFmt : LogSeverity → String
  | .info => "Info"
  | .warning => "Warning"
  | .error => "Error"
  | .security => "Security"

/-- AuditLogEntry (storage.rs lines 12-20); the serde_json::Value
details payload is modelled by its serialized text. -/
structure AuditLogEntry where
  timestamp : Int
  event_type : String
  user : Option String
  details : String
  severity : LogSeverity
  source : String
deriving DecidableEq, Repr

/-- The SecureStorage in-memory state (storage.rs lines 30-45):
the audit_logging feature flag read from config, the VecDeque of
entries as a List with the front at the head, and max_log_entries
(fixed to 10000 by SecureStorage::new). -/
structure SecureStorage where
  audit_logging : Bool
  audit_log : List AuditLogEntry
  max_log_entries : Nat
deriving DecidableEq, Repr

/-- SecureStorage::determine_severity (storage.rs lines 284-291). -/
def determine_severity (event_type : String) : LogSeverity :=
  if event_type == "login" || event_type == "logout" || event_type == "heartbeat" then
    .info
  else if event_type == "failed_auth" || event_type == "rate_limit_exceeded" then
    .warning
  else if event_type == "command_executed" then .security
  else .info

/-- The eviction while-loop of log_audit_event (storage.rs lines
82-84): while the log exceeds max entries, pop the front.  fuel bounds
the iteration count; any fuel at least length - max reaches the fixed
point. -/
def evictLoop (max : Nat) : Nat → List AuditLogEntry → List AuditLogEntry
  | 0, l => l
  | fuel + 1, l => if l.length > max then evictLoop max fuel l.tail else l

/-- SecureStorage::log_audit_event (storage.rs lines 61-91): no-op if
audit logging is disabled; otherwise build the entry (timestamp now,
user from the environment, severity from the event type, source
"agent"), push it at the back and evict from the front past capacity.
The synchronous persist-to-disk step is I/O and not part of the
in-memory state. -/
def log_audit_event (st : SecureStorage) (now : Int) (user : Option String)
    (event_type : String) (details : String) : SecureStorage :=
  if !st.audit_logging then st
  else
    let entry : AuditLogEntry :=
      ⟨now, event_type, user, details, determine_severity event_type, "agent"⟩
    let log := st.audit_log ++ [entry]
    let log := evictLoop st.max_log_entries log.length log
    { st with audit_log := log }

/-- The inputs of one log_audit_event call, for iterating insertions. -/
structure AuditEventInput where
  now : Int
  user : Option String
  event_type : String
  details : String
deriving DecidableEq, Repr

/-- The entry that log_audit_event builds from one input. -/
def mkEntry (e : AuditEventInput) : AuditLogEntry :=
  ⟨e.now, e.event_type, e.user, e.details, determine_severity e.event_type, "agent"⟩

/-- A sequence of log_audit_event calls. -/
def log_all (st : SecureStorage) (evs : List AuditEventInput) : SecureStorage :=
  evs.foldl (fun s e => log_audit_event s e.now e.user e.event_type e.details) st

/-- SecureStorage::load_audit_logs (storage.rs lines 222-242), given
the already-decrypted, deserialized persisted entries: push each at
the back in order, with no capacity enforcement. -/
def load_audit_logs (st : SecureStorage) (logs : List AuditLogEntry) : SecureStorage :=
  { st with audit_log := st.audit_log ++ logs }

/-- SecureStorage::get_audit_logs (storage.rs lines 93-114): optional
exact event_type filter, stable sort by timestamp, newest first,
optional truncation. -/
def get_audit_logs (st : SecureStorage) (limit : Option Nat)
    (event_type : Option String) : List AuditLogEntry :=
  let filtered_logs :=
    match event_type with
    | some f => st.audit_log.filter (fun e => e.event_type == f)
    | none => st.audit_log
  let sorted := (stableSortBy (fun a b => decide (a.timestamp ≤ b.timestamp)) filtered_logs).reverse
  match limit with
  | some n => sorted.take n
  | none => sorted

/-- Character-level model of str::replace("\x22", "\x22\x22"):
double every embedded double-quote. -/
def escQ : List Char → List Char
  | [] => []
  | c :: cs => if c = '"' then '"' :: '"' :: escQ cs else c :: escQ cs

def escapeQuotes (s : String) : String := String.mk (escQ s.data)

/-- One CSV data row of export_audit_logs (storage.rs lines 128-137):
all six fields are wrapped in double quotes, and only the Details
field (the serialized details payload) passes through the
quote-doubling replace.  The RFC3339 rendering of the timestamp is the
external chrono formatter, taken as the parameter fmtTs. -/
def csvRow (fmtTs : Int → String) (log : AuditLogEntry) : String :=
  "\"" ++ fmtTs log.timestamp ++ "\",\"" ++ log.event_type ++ "\",\"" ++
    log.user.getD "Unknown" ++ "\",\"" ++ log.severity.debugFmt ++ "\",\"" ++
    log.source ++ "\",\"" ++ escapeQuotes log.details ++ "\"\n"

/-- The csv arm of SecureStorage::export_audit_logs (storage.rs lines
124-141): header line, then one row per entry of the unfiltered,
newest-first log, accumulated by push_str. -/
def export_audit_logs_csv (fmtTs : Int → String) (st : SecureStorage) : String :=
  let logs := get_audit_logs st none none
  let header := "Timestamp,Event Type,User,Severity,Source,Details\n"
  logs.foldl (fun csv_data log => csv_data ++ csvRow fmtTs log) header

/-- Modelled from the claim's words for comparison with the source:
a CSV row in which every field, not only Details, has its embedded
double quotes doubled. -/
def csvRowClaimed (fmtTs : Int → String) (log : AuditLogEntry) : String :=
  "\"" ++ escapeQuotes (fmtTs log.timestamp) ++ "\",\"" ++
    escapeQuotes log.event_type ++ "\",\"" ++
    escapeQuotes (log.user.getD "Unknown") ++ "\",\"" ++
    escapeQuotes log.severity.debugFmt ++ "\",\"" ++
    escapeQuotes log.source ++ "\",\"" ++ escapeQuotes log.details ++ "\"\n"

/-- Modelled from the claim's words: the export with every field
quote-escaped. -/
def export_audit_logs_csv_claimed (fmtTs : Int → String) (st : SecureStorage) : String :=
  let logs := get_audit_logs st none none
  let header := "Timestamp,Event Type,User,Severity,Source,Details\n"
  logs.foldl (fun csv_data log => csv_data ++ csvRowClaimed fmtTs log) header

/-- Right-fold string concatenation of rendered rows, the closed form
of the export accumulation. -/
def concatMapStr (g : α → String) : List α → String
  | [] => ""
  | x :: xs => g x ++ concatMapStr g xs

/-! ## CommandExecutor (src/agent/src/commands.rs lines 13-19, 64-179) -/

/-- The injected platform action provider (SystemManager calls made by
execute_command), with each call's outcome. -/
structure SystemBehavior where
  lock_screen : Except String Unit
  logout_user : Except String Unit
  get_system_info : Except String String

/-- The executor-owned mutable state: the command history HashMap and
the rate limiter. -/
structure CommandExecutor where
  history : List (String × CommandHistoryEntry)
  rate_limiter : RateLimiter

/-- CommandExecutor::new (commands.rs lines 64-77): empty history and
a RateLimiter with max 10 commands per 60-second window. -/
def CommandExecutor.init : CommandExecutor := ⟨[], ⟨[], 10, 60⟩⟩

/-- The serialized serde_json audit payload built by log_command
(commands.rs lines 165-179), modelled as a delimited rendering; no
claim inspects this text. -/
def command_log_details (command_id : String) (command_type : CommandType)
    (user : String) (success : Bool) (details : String) : String :=
  command_id ++ "|" ++ command_type.debugFmt ++ "|" ++ user ++ "|" ++
    toString success ++ "|" ++ details

/-- CommandExecutor::execute_command (commands.rs lines 97-158):
consult the rate limiter first (check_rate_limit); on denial respond
with failure message "Rate limit exceeded" and log; otherwise dispatch
on the command kind to the action provider, respond, log the outcome
as a command_executed audit event and store the history entry.  No
authorizer is consulted anywhere in this flow.  monoNow is the
monotonic Instant tick used by the rate limiter; now the Utc unix time
used in responses and entries; envUser the environment user recorded
by audit logging. -/
def execute_command (sys : SystemBehavior) (ex : CommandExecutor) (st : SecureStorage)
    (monoNow : Nat) (now : Int) (envUser : Option String) (command : DiscordCommand) :
    CommandResponse × CommandExecutor × SecureStorage :=
  let command_id := command.command_id
  let authorized_user := command.authorized_user
  let command_type := command.command
  let checked := ex.rate_limiter.can_execute monoNow authorized_user
  if !checked.1 then
    let response : CommandResponse := ⟨command_id, false, "Rate limit exceeded", now⟩
    let st := log_audit_event st now envUser "command_executed"
      (command_log_details command_id command_type authorized_user false
        "Rate limit exceeded")
    (response, ⟨ex.history, checked.2⟩, st)
  else
    let outcome :=
      match command_type with
      | .lock =>
        match sys.lock_screen with
        | .ok _ => (true, "Screen locked successfully")
        | .error e => (false, "Failed to lock screen: " ++ e)
      | .logout =>
        match sys.logout_user with
        | .ok _ => (true, "User logged out successfully")
        | .error e => (false, "Failed to logout user: " ++ e)
      | .ping => (true, "Pong! Device is responsive")
      | .status =>
        match sys.get_system_info with
        | .ok info => (true, "Status: " ++ info)
        | .error e => (false, "Failed to get status: " ++ e)
    let response : CommandResponse := ⟨command_id, outcome.1, outcome.2, now⟩
    let st := log_audit_event st now envUser "command_executed"
      (command_log_details command_id command_type authorized_user outcome.1 outcome.2)
    let history := store_command_history ex.history now command_id command_type
      authorized_user outcome.1 outcome.2
    (response, ⟨history, checked.2⟩, st)

/-! ## SecurityManager (src/agent/src/security.rs) -/

/-- SecurityManager::encrypt_data (security.rs lines 45-69): requires
the key to be initialized, draws a fresh 12-byte nonce (passed here as
the nonce_bytes parameter, since the rng is external), seals the data
with AES-256-GCM — the external primitive is the aeadSeal parameter,
returning ciphertext with the 16-byte tag appended — and prepends the
nonce.  Errors are modelled as none. -/
def encrypt_data (aeadSeal : List Nat → List Nat → List Nat → List Nat)
    (encryption_key : Option (List Nat)) (nonce_bytes : List Nat)
    (data : List Nat) : Option (List Nat) :=
  match encryption_key with
  | none => none
  | some key => some (nonce_bytes ++ aeadSeal key nonce_bytes data)

/-- SecurityManager::decrypt_data (security.rs lines 71-95): reject
blobs shorter than 28 bytes (12-byte nonce, 16-byte tag, 1 byte of
data is commented but the literal check is length < 28), require the
key, split nonce from ciphertext-with-tag at offset 12, and open via
the AEAD primitive (the opn parameter, returning none on
authentication failure). -/
def decrypt_data (opn : List Nat → List Nat → List Nat → Option (List Nat))
    (encryption_key : Option (List Nat)) (encrypted_data : List Nat) :
    Option (List Nat) :=
  if encrypted_data.length < 28 then none
  else
    match encryption_key with
    | none => none
    | some key =>
      let nonce_bytes := encrypted_data.take 12
      let encrypted_with_tag := encrypted_data.drop 12
      opn key nonce_bytes encrypted_with_tag

/-- The standard base64 alphabet. -/
def base64Alphabet : List Char :=
  "ABCDEFGHIJKLMNOPQRSTUVWXYZabcdefghijklmnopqrstuvwxyz0123456789+/".toList

def b64Char (n : Nat) : Char := base64Alphabet.getD n 'A'

/-- Standard padded base64 of a byte list, three input bytes to four
output characters, as produced by base64 STANDARD.encode. -/
def base64Chunks : List Nat → List Char
  | [] => []
  | [b0] => [b64Char (b0 / 4), b64Char (b0 % 4 * 16), '=', '=']
  | [b0, b1] =>
    [b64Char (b0 / 4), b64Char (b0 % 4 * 16 + b1 / 16), b64Char (b1 % 16 * 4), '=']
  | b0 :: b1 :: b2 :: rest =>
    b64Char (b0 / 4) :: b64Char (b0 % 4 * 16 + b1 / 16) ::
      b64Char (b1 % 16 * 4 + b2 / 64) :: b64Char (b2 % 64) :: base64Chunks rest

def base64Encode (bs : List Nat) : List Char := base64Chunks bs

/-- SecurityManager::generate_secure_random_string (security.rs lines
180-187): base64-encode length random bytes (the rng output is the
random_bytes parameter; the source fills a vec of exactly the
requested length) and take the byte slice [..length].  base64 output
is ASCII, so the byte slice is the character prefix; a Rust panic on
an out-of-bounds slice is modelled as none. -/
def generate_secure_random_string (random_bytes : List Nat) (length : Nat) :
    Option String :=
  let base64_chars := base64Encode random_bytes
  if length ≤ base64_chars.length then some (String.mk (base64_chars.take length))
  else none

end DeviceNotifier

namespace DeviceNotifier

/-! ## Claim C5 -/

/-- Claim C5 as stated is falsified at the window boundary: with
max_commands = 1, window 60, and a single recorded timestamp 40 for
alice, a call at now = 100 finds the recorded timestamp exactly window
old (40 = now - window).  The code prunes it (retain keeps only
t > now - window) and admits, while the claim's rule (prune only
timestamps strictly older than now - window) would retain it and deny. -/
theorem c5_counterexample :
    (RateLimiter.can_execute ⟨[("alice", [40])], 1, 60⟩ 100 "alice").1 = true ∧
    (RateLimiter.can_execute_claimed ⟨[("alice", [40])], 1, 60⟩ 100 "alice").1 = false := by
  decide

/-- Claim C5 (amended): each check_and_record call first prunes the
identity's recorded timestamps that are at least window-old
(t ≤ now - window, not only the strictly older ones), then admits and
records now iff the pruned count is strictly below max_commands, and
denies without recording otherwise; with max_commands = 2 and a
60-second window the first two calls for an identity admit, a third
call within the window is denied, and a call after the window has
elapsed admits again. -/
theorem c5_amended :
    (∀ (rl : RateLimiter) (now : Nat) (u : String),
      rl.window_duration ≤ now →
      (let kept := (lookupTimes rl.commands u).filter
        (fun t => now - rl.window_duration < t)
       (rl.can_execute now u).1 = decide (kept.length < rl.max_commands) ∧
       (rl.can_execute now u).2.commands =
         setTimes rl.commands u
           (if kept.length < rl.max_commands then kept ++ [now] else kept))) ∧
    (let s1 := RateLimiter.can_execute ⟨[], 2, 60⟩ 100 "alice"
     let s2 := s1.2.can_execute 101 "alice"
     let s3 := s2.2.can_execute 102 "alice"
     let s4 := s3.2.can_execute 162 "alice"
     s1.1 = true ∧ s2.1 = true ∧ s3.1 = false ∧ s4.1 = true) := by
  constructor
  · intro rl now u _h
    simp only [RateLimiter.can_execute]
    constructor
    · by_cases hlt :
        ((lookupTimes rl.commands u).filter
          (fun t => now - rl.window_duration < t)).length < rl.max_commands
      · simp [hlt]
      · simp [hlt]
    · by_cases hlt :
        ((lookupTimes rl.commands u).filter
          (fun t => now - rl.window_duration < t)).length < rl.max_commands
      · simp [hlt]
      · simp [hlt]
  · decide

/-- Witness for c5_amended: the general part instantiated at the
limiter holding timestamp 40 for alice, max 1, window 60, at now 100. -/
theorem c5_amended_witness :
    (60 : Nat) ≤ 100 ∧
    (let kept := (lookupTimes [("alice", [40])] "alice").filter (fun t => 100 - 60 < t)
     (RateLimiter.can_execute ⟨[("alice", [40])], 1, 60⟩ 100 "alice").1 =
       decide (kept.length < 1) ∧
     (RateLimiter.can_execute ⟨[("alice", [40])], 1, 60⟩ 100 "alice").2.commands =
       setTimes [("alice", [40])] "alice"
         (if kept.length < 1 then kept ++ [100] else kept)) :=
  ⟨by decide, c5_amended.1 ⟨[("alice", [40])], 1, 60⟩ 100 "alice" (by decide)⟩

end DeviceNotifier

namespace DeviceNotifier

/-! ## Claim C2 -/

/-- Claim C2 as stated is falsified by a future-dated command: with
remote commands enabled, issuer alice allow-listed, no HMAC secret,
now = 1000 and issued_at = 1301 (301 seconds in the future, so the
absolute clock difference exceeds 300), validate_command accepts the
command, because the source only rejects when now - issued_at > 300
and here the signed difference is -301. -/
theorem c2_counterexample :
    validate_command (fun _ _ => "") ⟨true, ["alice"], none, true⟩ 1000
      ⟨.ping, "c1", "alice", 1301, ""⟩ = true ∧
    ((1000 : Int) - 1301).natAbs = 301 := by
  decide

/-- Claim C2 (amended): the freshness check is one-directional: a
validated command always satisfies now - issued_at ≤ 300 (commands
more than 300 seconds in the past are rejected), but commands with a
future timestamp are never rejected by the freshness check — with the
other checks passing and no secret configured, validation reduces
exactly to decide (now - issued_at ≤ 300). -/
theorem c2_amended (hmacBase64 : String → String → String) (cfg : Config)
    (now : Int) (cmd : DiscordCommand)
    (h1 : cfg.remote_commands_enabled = true)
    (h2 : cfg.allowed_users.contains cmd.authorized_user = true)
    (h3 : cfg.hmac_secret = none) :
    validate_command hmacBase64 cfg now cmd = decide (now - cmd.timestamp ≤ 300) := by
  simp only [validate_command, h1, h2, h3, Bool.not_true, Bool.false_eq_true, if_false]
  by_cases h : now - cmd.timestamp > 300
  · simp [h]
    omega
  · simp [h]
    omega

/-- Witness for c2_amended: a command issued 301 seconds in the future
of now = 0 passes validation. -/
theorem c2_amended_witness :
    (Config.remote_commands_enabled ⟨true, ["alice"], none, true⟩ = true) ∧
    (List.contains ["alice"] "alice" = true) ∧
    (Config.hmac_secret ⟨true, ["alice"], none, true⟩ = none) ∧
    validate_command (fun _ _ => "") ⟨true, ["alice"], none, true⟩ 0
      ⟨.ping, "c1", "alice", 301, ""⟩ =
      decide ((0 : Int) - 301 ≤ 300) :=
  ⟨by decide, by decide, by decide,
   c2_amended (fun _ _ => "") ⟨true, ["alice"], none, true⟩ 0
     ⟨.ping, "c1", "alice", 301, ""⟩ (by decide) (by decide) (by decide)⟩

/-! ## Claim C3 -/

/-- Claim C3: with a shared HMAC secret configured, a command passes
the signature check iff its signature equals the base64-encoded
HMAC-SHA256 (abstracted as the hmacBase64 parameter) of the
concatenation command_id, issuer, unix timestamp under that secret;
the check depends on no other command field (two commands agreeing on
id, issuer, timestamp and signature verify identically whatever their
command kind); and with no secret configured, validation never
consults the signature and reduces to the policy, allow-list and
freshness checks. -/
theorem c3_signature_check :
    (∀ (hmacBase64 : String → String → String) (cmd : DiscordCommand) (secret : String),
      verify_signature hmacBase64 cmd secret = true ↔
        cmd.signature =
          hmacBase64 secret (cmd.command_id ++ cmd.authorized_user ++ toString cmd.timestamp)) ∧
    (∀ (hmacBase64 : String → String → String) (secret : String) (a b : DiscordCommand),
      a.command_id = b.command_id → a.authorized_user = b.authorized_user →
      a.timestamp = b.timestamp → a.signature = b.signature →
      verify_signature hmacBase64 a secret = verify_signature hmacBase64 b secret) ∧
    (∀ (hmacBase64 : String → String → String) (cfg : Config) (now : Int)
        (cmd : DiscordCommand),
      cfg.hmac_secret = none →
      validate_command hmacBase64 cfg now cmd =
        (cfg.remote_commands_enabled &&
          (cfg.allowed_users.contains cmd.authorized_user &&
            decide (now - cmd.timestamp ≤ 300)))) := by
  refine ⟨?_, ?_, ?_⟩
  · intro hmacBase64 cmd secret
    simp [verify_signature]
  · intro hmacBase64 secret a b hid huser hts hsig
    simp [verify_signature, hid, huser, hts, hsig]
  · intro hmacBase64 cfg now cmd hnone
    simp only [validate_command, hnone]
    by_cases h1 : cfg.remote_commands_enabled
    · by_cases h2 : cmd.authorized_user ∈ cfg.allowed_users
      · by_cases h3 : now - cmd.timestamp > 300
        · simp [h1, h2, h3]
          omega
        · simp [h1, h2, h3]
          omega
      · simp [h1, h2]
    · simp [h1]

/-- Witness for c3_signature_check at concrete inputs: the hmac
abstraction that returns the payload itself, a command signed with the
matching payload, and a configuration with no secret. -/
theorem c3_signature_check_witness :
    (verify_signature (fun _ p => p) ⟨.ping, "c1", "alice", 42, "c1alice42"⟩ "k" = true ↔
      "c1alice42" = (fun (_ p : String) => p) "k" ("c1" ++ "alice" ++ toString (42 : Int))) ∧
    (Config.hmac_secret ⟨true, ["alice"], none, true⟩ = none ∧
      validate_command (fun _ p => p) ⟨true, ["alice"], none, true⟩ 50
        ⟨.ping, "c1", "alice", 42, "c1alice42"⟩ =
        (true && (List.contains ["alice"] "alice" && decide ((50 : Int) - 42 ≤ 300)))) :=
  ⟨c3_signature_check.1 (fun _ p => p) ⟨.ping, "c1", "alice", 42, "c1alice42"⟩ "k",
   by decide,
   c3_signature_check.2.2 (fun _ p => p) ⟨true, ["alice"], none, true⟩ 50
     ⟨.ping, "c1", "alice", 42, "c1alice42"⟩ (by decide)⟩

end DeviceNotifier

namespace DeviceNotifier

/-! ## Claim C8 -/

/-- Replacing the value at a key leaves the key sequence unchanged. -/
theorem map_replace_fst (l : List (String × β)) (k : String) (e : β) :
    (l.map (fun p => if p.1 == k then (k, e) else p)).map Prod.fst = l.map Prod.fst := by
  induction l with
  | nil => rfl
  | cons p l ih =>
    simp only [List.map_cons, ih]
    by_cases hp : p.1 = k
    · rw [if_pos (by simp [hp])]
      simp [hp]
    · rw [if_neg (by simp [hp])]

/-- After replacing the value at a present key, lookup by that key
finds exactly the new pair. -/
theorem find_replace (l : List (String × β)) (k : String) (e : β)
    (h : l.any (fun p => p.1 == k) = true) :
    (l.map (fun p => if p.1 == k then (k, e) else p)).find? (fun p => p.1 == k) =
      some (k, e) := by
  induction l with
  | nil => simp at h
  | cons p l ih =>
    simp only [List.map_cons]
    by_cases hp : p.1 = k
    · rw [if_pos (by simp [hp])]
      rw [List.find?_cons_of_pos _ (by simp)]
    · rw [if_neg (by simp [hp])]
      rw [List.find?_cons_of_neg _ (by simp [hp])]
      refine ih ?_
      simp only [List.any_cons] at h
      simpa [hp] using h

/-- Claim C8: store_command_history keyed by command_id overwrites
rather than duplicates: key uniqueness is preserved by every store,
a resubmission with an existing command_id never grows the history,
and when the history is within its 1000-entry cap the store is exactly
the value-replacing map, keeping the size and making lookup of the
command_id return the fresh entry. -/
theorem c8_history_overwrite (history : List (String × CommandHistoryEntry)) (now : Int)
    (command_id : String) (ct : CommandType) (user : String) (succ : Bool)
    (details : String) :
    ((history.map Prod.fst).Nodup →
      ((store_command_history history now command_id ct user succ details).map
        Prod.fst).Nodup) ∧
    (history.any (fun p => p.1 == command_id) = true →
      (store_command_history history now command_id ct user succ details).length ≤
        history.length ∧
      (history.length ≤ 1000 →
        store_command_history history now command_id ct user succ details =
          history.map (fun p => if p.1 == command_id then
            (command_id, ⟨command_id, ct, user, now, succ, details⟩) else p) ∧
        (store_command_history history now command_id ct user succ details).length =
          history.length ∧
        (store_command_history history now command_id ct user succ details).find?
            (fun p => p.1 == command_id) =
          some (command_id, ⟨command_id, ct, user, now, succ, details⟩))) := by
  constructor
  · intro hnd
    unfold store_command_history
    by_cases hAny : history.any (fun p => p.1 == command_id) = true
    · simp only [hAny, if_true]
      set l2 := history.map (fun p => if p.1 == command_id then
        (command_id, (⟨command_id, ct, user, now, succ, details⟩ : CommandHistoryEntry))
        else p) with hl2
      have hnd2 : (l2.map Prod.fst).Nodup := by
        rw [hl2, map_replace_fst]
        exact hnd
      by_cases hlen : l2.length > 1000
      · rw [if_pos hlen]
        refine List.Nodup.sublist ?_ hnd2
        exact List.Sublist.map Prod.fst (List.filter_sublist l2)
      · rw [if_neg hlen]
        exact hnd2
    · have hF : (history.any fun p => p.1 == command_id) = false :=
        Bool.eq_false_iff.mpr hAny
      simp only [hF, Bool.false_eq_true, if_false]
      set l2 := history ++ [(command_id,
        (⟨command_id, ct, user, now, succ, details⟩ : CommandHistoryEntry))] with hl2
      have hnotmem : command_id ∉ history.map Prod.fst := by
        intro hmem
        rcases List.mem_map.mp hmem with ⟨p, hp, hfst⟩
        have : history.any (fun p => p.1 == command_id) = true := by
          rw [List.any_eq_true]
          exact ⟨p, hp, by simp [hfst]⟩
        exact hAny this
      have hnd2 : (l2.map Prod.fst).Nodup := by
        rw [hl2]
        simp only [List.map_append, List.map_cons, List.map_nil]
        rw [List.nodup_append]
        refine ⟨hnd, List.nodup_singleton _, ?_⟩
        intro a ha hb
        simp only [List.mem_singleton] at hb
        subst hb
        exact hnotmem ha
      by_cases hlen : l2.length > 1000
      · rw [if_pos hlen]
        refine List.Nodup.sublist ?_ hnd2
        exact List.Sublist.map Prod.fst (List.filter_sublist l2)
      · rw [if_neg hlen]
        exact hnd2
  · intro hAny
    unfold store_command_history
    simp only [hAny, if_true]
    set l2 := history.map (fun p => if p.1 == command_id then
      (command_id, (⟨command_id, ct, user, now, succ, details⟩ : CommandHistoryEntry))
      else p) with hl2
    have hlen2 : l2.length = history.length := by rw [hl2, List.length_map]
    constructor
    · by_cases hlen : l2.length > 1000
      · rw [if_pos hlen]
        calc (l2.filter _).length ≤ l2.length := List.length_filter_le _ _
          _ = history.length := hlen2
      · rw [if_neg hlen]
        exact le_of_eq hlen2
    · intro hcap
      have hlen : ¬ l2.length > 1000 := by omega
      rw [if_neg hlen]
      exact ⟨rfl, hlen2, find_replace history command_id _ hAny⟩

/-- Witness for c8_history_overwrite: resubmitting command id c1 into
a one-entry history replaces the stored entry in place. -/
theorem c8_history_overwrite_witness :
    (([("c1", (⟨"c1", .ping, "alice", 5, true, "old"⟩ : CommandHistoryEntry))].map
        Prod.fst).Nodup →
      ((store_command_history
          [("c1", ⟨"c1", .ping, "alice", 5, true, "old"⟩)] 9 "c1" .ping "alice" true
          "new").map Prod.fst).Nodup) ∧
    ([("c1", (⟨"c1", .ping, "alice", 5, true, "old"⟩ : CommandHistoryEntry))].any
        (fun p => p.1 == "c1") = true ∧
      (store_command_history [("c1", ⟨"c1", .ping, "alice", 5, true, "old"⟩)] 9 "c1"
        .ping "alice" true "new").length ≤ 1) :=
  ⟨(c8_history_overwrite [("c1", ⟨"c1", .ping, "alice", 5, true, "old"⟩)] 9 "c1" .ping
      "alice" true "new").1,
   by decide,
   ((c8_history_overwrite [("c1", ⟨"c1", .ping, "alice", 5, true, "old"⟩)] 9 "c1" .ping
      "alice" true "new").2 (by decide)).1⟩

end DeviceNotifier

namespace DeviceNotifier

/-! ## Claims C6 and C9 -/

/-- The eviction loop, given enough fuel, keeps exactly the newest max
entries: it equals dropping the excess from the front. -/
theorem evictLoop_eq_drop (max : Nat) :
    ∀ (fuel : Nat) (l : List AuditLogEntry),
      l.length ≤ fuel + max → evictLoop max fuel l = l.drop (l.length - max) := by
  intro fuel
  induction fuel with
  | zero =>
    intro l h
    have h0 : l.length - max = 0 := by omega
    simp [evictLoop, h0]
  | succ fuel ih =>
    intro l h
    by_cases hlen : l.length > max
    · rw [evictLoop, if_pos hlen]
      rcases l with _ | ⟨a, t⟩
      · simp at hlen
      · have ht : (a :: t).tail = t := rfl
        rw [ht, ih t (by simp only [List.length_cons] at h; omega)]
        simp only [List.length_cons] at hlen ⊢
        have harith : t.length + 1 - max = (t.length - max) + 1 := by omega
        rw [harith, List.drop_succ_cons]
    · rw [evictLoop, if_neg hlen]
      have h0 : l.length - max = 0 := by omega
      simp [h0]

/-- log_audit_event never changes the feature flag or the capacity. -/
theorem log_audit_event_fields (st : SecureStorage) (now : Int) (user : Option String)
    (et d : String) :
    (log_audit_event st now user et d).audit_logging = st.audit_logging ∧
    (log_audit_event st now user et d).max_log_entries = st.max_log_entries := by
  cases h : st.audit_logging <;> simp [log_audit_event, h]

/-- With audit logging enabled, one log_audit_event call appends the
new entry at the back and drops the front excess over capacity. -/
theorem log_audit_event_log (st : SecureStorage) (now : Int) (user : Option String)
    (et d : String) (h : st.audit_logging = true) :
    (log_audit_event st now user et d).audit_log =
      (st.audit_log ++
          [(⟨now, et, user, d, determine_severity et, "agent"⟩ : AuditLogEntry)]).drop
        (st.audit_log.length + 1 - st.max_log_entries) := by
  simp only [log_audit_event, h, Bool.not_true, Bool.false_eq_true, if_false]
  rw [evictLoop_eq_drop st.max_log_entries _ _ (by omega)]
  simp [List.length_append]

/-- Iterating log_audit_event from a within-capacity state keeps
exactly the newest max entries of the appended stream. -/
theorem log_all_eq (evs : List AuditEventInput) :
    ∀ st : SecureStorage, st.audit_logging = true →
      st.audit_log.length ≤ st.max_log_entries →
      (log_all st evs).audit_logging = true ∧
      (log_all st evs).max_log_entries = st.max_log_entries ∧
      (log_all st evs).audit_log =
        (st.audit_log ++ evs.map mkEntry).drop
          (st.audit_log.length + evs.length - st.max_log_entries) := by
  induction evs with
  | nil =>
    intro st h hcap
    refine ⟨h, rfl, ?_⟩
    simp only [log_all, List.foldl_nil, List.map_nil, List.append_nil, List.length_nil]
    rw [show st.audit_log.length + 0 - st.max_log_entries = 0 by omega, List.drop_zero]
  | cons e rest ih =>
    intro st h hcap
    have hstep : log_all st (e :: rest) =
        log_all (log_audit_event st e.now e.user e.event_type e.details) rest := rfl
    set st1 := log_audit_event st e.now e.user e.event_type e.details with hst1
    have hfields := log_audit_event_fields st e.now e.user e.event_type e.details
    have h1 : st1.audit_logging = true := by rw [hst1, hfields.1, h]
    have hmax : st1.max_log_entries = st.max_log_entries := hfields.2
    have hlog : st1.audit_log =
        (st.audit_log ++ [mkEntry e]).drop
          (st.audit_log.length + 1 - st.max_log_entries) := by
      rw [hst1, log_audit_event_log st e.now e.user e.event_type e.details h]
      rfl
    have hlen1 : st1.audit_log.length =
        st.audit_log.length + 1 - (st.audit_log.length + 1 - st.max_log_entries) := by
      rw [hlog, List.length_drop, List.length_append, List.length_cons, List.length_nil]
    have hcap1 : st1.audit_log.length ≤ st1.max_log_entries := by
      rw [hlen1, hmax]
      omega
    obtain ⟨g1, g2, g3⟩ := ih st1 h1 hcap1
    refine ⟨by rw [hstep]; exact g1, by rw [hstep, g2, hmax], ?_⟩
    rw [hstep, g3, hmax, hlen1, hlog]
    rw [← List.drop_append_of_le_length
      (by simp only [List.length_append, List.length_cons, List.length_nil]; omega)]
    rw [List.drop_drop]
    have hshape : (st.audit_log ++ [mkEntry e]) ++ rest.map mkEntry =
        st.audit_log ++ (e :: rest).map mkEntry := by
      simp [List.append_assoc]
    rw [hshape]
    congr 1
    simp only [List.length_cons]
    omega

/-- Claim C6: with audit logging enabled and the fixed capacity 10000,
every log_audit_event leaves at most 10000 entries in memory; and
inserting 10001 events into an initially empty store retains exactly
the 10000 most recently inserted entries (all but the oldest). -/
theorem c6_capacity_bound :
    (∀ (st : SecureStorage) (now : Int) (user : Option String) (et d : String),
      st.audit_logging = true → st.max_log_entries = 10000 →
      ((log_audit_event st now user et d).audit_log).length ≤ 10000) ∧
    (∀ evs : List AuditEventInput, evs.length = 10001 →
      (log_all ⟨true, [], 10000⟩ evs).audit_log = (evs.map mkEntry).drop 1 ∧
      ((log_all ⟨true, [], 10000⟩ evs).audit_log).length = 10000) := by
  constructor
  · intro st now user et d h hcap
    rw [log_audit_event_log st now user et d h, List.length_drop, List.length_append]
    simp only [List.length_cons, List.length_nil]
    omega
  · intro evs hn
    obtain ⟨_, _, g3⟩ := log_all_eq evs ⟨true, [], 10000⟩ rfl (by
      simp only [List.length_nil]
      omega)
    have hlog : (log_all ⟨true, [], 10000⟩ evs).audit_log = (evs.map mkEntry).drop 1 := by
      rw [g3]
      simp only [List.nil_append, List.length_nil, hn]
    refine ⟨hlog, ?_⟩
    rw [hlog, List.length_drop, List.length_map, hn]

/-- Witness for c6_capacity_bound: one insertion into the empty store,
and the 10001-fold insertion of a fixed event. -/
theorem c6_capacity_bound_witness :
    ((SecureStorage.audit_logging ⟨true, [], 10000⟩ = true) ∧
      (SecureStorage.max_log_entries ⟨true, [], 10000⟩ = 10000) ∧
      ((log_audit_event ⟨true, [], 10000⟩ 0 none "login" "d").audit_log).length ≤ 10000) ∧
    ((List.replicate 10001 (⟨0, none, "login", "d"⟩ : AuditEventInput)).length = 10001 ∧
      (log_all ⟨true, [], 10000⟩
        (List.replicate 10001 ⟨0, none, "login", "d"⟩)).audit_log =
        ((List.replicate 10001 (⟨0, none, "login", "d"⟩ : AuditEventInput)).map
          mkEntry).drop 1) :=
  ⟨⟨rfl, rfl, c6_capacity_bound.1 ⟨true, [], 10000⟩ 0 none "login" "d" rfl rfl⟩,
   List.length_replicate 10001 _,
   (c6_capacity_bound.2 (List.replicate 10001 ⟨0, none, "login", "d"⟩)
     (List.length_replicate 10001 _)).1⟩

/-- Claim C9: load_audit_logs appends the decrypted blob's entries in
order with no capacity bound, so a blob of N entries loaded into the
fresh empty store leaves N in memory even when N exceeds 10000; the
bound is re-established by the next log_audit_event, which evicts back
down to 10000. -/
theorem c9_load_unbounded :
    (∀ (st : SecureStorage) (logs : List AuditLogEntry),
      (load_audit_logs st logs).audit_log = st.audit_log ++ logs) ∧
    (∀ logs : List AuditLogEntry,
      (load_audit_logs ⟨true, [], 10000⟩ logs).audit_log.length = logs.length) ∧
    (∀ (logs : List AuditLogEntry) (now : Int) (user : Option String) (et d : String),
      logs.length > 10000 →
      ((log_audit_event (load_audit_logs ⟨true, [], 10000⟩ logs) now user et
        d).audit_log).length = 10000) := by
  have hload : ∀ logs : List AuditLogEntry,
      load_audit_logs ⟨true, [], 10000⟩ logs = ⟨true, logs, 10000⟩ := by
    intro logs
    simp only [load_audit_logs, List.nil_append]
  refine ⟨fun st logs => rfl, fun logs => by rw [hload], ?_⟩
  intro logs now user et d hlen
  rw [hload, log_audit_event_log ⟨true, logs, 10000⟩ now user et d rfl]
  rw [List.length_drop, List.length_append]
  simp only [List.length_cons, List.length_nil]
  omega

/-- Witness for c9_load_unbounded: a persisted blob of 10001 entries
followed by one insertion. -/
theorem c9_load_unbounded_witness :
    ((List.replicate 10001
        (⟨0, "login", none, "d", .info, "agent"⟩ : AuditLogEntry)).length > 10000) ∧
    ((log_audit_event
        (load_audit_logs ⟨true, [], 10000⟩
          (List.replicate 10001 ⟨0, "login", none, "d", .info, "agent"⟩))
        0 none "login" "d").audit_log).length = 10000 :=
  ⟨by rw [List.length_replicate]; omega,
   c9_load_unbounded.2.2
     (List.replicate 10001 ⟨0, "login", none, "d", .info, "agent"⟩) 0 none "login" "d"
     (by rw [List.length_replicate]; omega)⟩

end DeviceNotifier

namespace DeviceNotifier

/-! ## Claim C7 -/

/-- The push_str accumulation of the export loop factors into the
initial accumulator followed by the concatenation of the rendered
rows. -/
theorem foldl_append_str (g : α → String) (l : List α) :
    ∀ a : String, l.foldl (fun acc x => acc ++ g x) a = a ++ concatMapStr g l := by
  induction l with
  | nil =>
    intro a
    simp [concatMapStr]
  | cons x xs ih =>
    intro a
    simp only [List.foldl_cons, concatMapStr]
    rw [ih (a ++ g x), String.append_assoc]

/-- The quote-escaping of the Details field doubles every embedded
double-quote character. -/
theorem escQ_count (l : List Char) : (escQ l).count '"' = 2 * l.count '"' := by
  induction l with
  | nil => simp [escQ]
  | cons c cs ih =>
    by_cases h : c = '"'
    · simp only [escQ, h, if_true, List.count_cons, ih]
      simp
      omega
    · simp only [escQ, h, if_false, List.count_cons, ih]
      simp [h]

/-- Claim C7 as stated is falsified by a double quote embedded in a
non-Details field: exporting a single entry whose event_type contains
a double quote yields a row in which that quote is not doubled (only
the Details field passes through the quote-doubling replace), so the
code's output differs from the all-fields-escaped output the claim
describes. -/
theorem c7_counterexample :
    export_audit_logs_csv (fun t => toString t)
        ⟨true, [⟨5, "x\"y", none, "d", .info, "agent"⟩], 10000⟩ =
      "Timestamp,Event Type,User,Severity,Source,Details\n\"5\",\"x\"y\",\"Unknown\",\"Info\",\"agent\",\"d\"\n" ∧
    export_audit_logs_csv_claimed (fun t => toString t)
        ⟨true, [⟨5, "x\"y", none, "d", .info, "agent"⟩], 10000⟩ =
      "Timestamp,Event Type,User,Severity,Source,Details\n\"5\",\"x\"\"y\",\"Unknown\",\"Info\",\"agent\",\"d\"\n" ∧
    export_audit_logs_csv (fun t => toString t)
        ⟨true, [⟨5, "x\"y", none, "d", .info, "agent"⟩], 10000⟩ ≠
      export_audit_logs_csv_claimed (fun t => toString t)
        ⟨true, [⟨5, "x\"y", none, "d", .info, "agent"⟩], 10000⟩ := by
  refine ⟨by decide, by decide, by decide⟩

/-- Claim C7 (amended): the tabular export always begins with the
header row Timestamp,Event Type,User,Severity,Source,Details and is
followed by one double-quoted row per entry of the newest-first log,
in which only the Details field has its embedded double quotes doubled
(each quote becoming two), while the other five fields are emitted
verbatim. -/
theorem c7_amended (fmtTs : Int → String) (st : SecureStorage) :
    export_audit_logs_csv fmtTs st =
      "Timestamp,Event Type,User,Severity,Source,Details\n" ++
        concatMapStr (csvRow fmtTs) (get_audit_logs st none none) ∧
    (∀ s : String, (escapeQuotes s).data.count '"' = 2 * s.data.count '"') ∧
    (∀ log : AuditLogEntry, csvRow fmtTs log =
      "\"" ++ fmtTs log.timestamp ++ "\",\"" ++ log.event_type ++ "\",\"" ++
        log.user.getD "Unknown" ++ "\",\"" ++ log.severity.debugFmt ++ "\",\"" ++
        log.source ++ "\",\"" ++ escapeQuotes log.details ++ "\"\n") := by
  refine ⟨?_, ?_, fun log => rfl⟩
  · unfold export_audit_logs_csv
    exact foldl_append_str (csvRow fmtTs) (get_audit_logs st none none) _
  · intro s
    exact escQ_count s.data

end DeviceNotifier

namespace DeviceNotifier

/-! ## Claim C1 -/

/-- Claim C1 is contradicted by the code: execute_command consults the
rate limiter first and never consults the authorizer at all
(DiscordClient::validate_command is dead code, invoked nowhere).  For
a Ping command from issuer mallory, who is not in the allow-list, the
authorizer would deny, yet execute_command consumes mallory's
rate-limit quota (the limiter records the call instant), executes the
command and returns a successful response, recording a history
entry. -/
theorem c1_authorizer_not_consulted :
    validate_command (fun _ _ => "") ⟨true, ["alice"], none, true⟩ 0
      ⟨.ping, "c1", "mallory", 0, ""⟩ = false ∧
    (execute_command ⟨.ok (), .ok (), .ok "info"⟩ CommandExecutor.init ⟨true, [], 10000⟩
        60 0 none ⟨.ping, "c1", "mallory", 0, ""⟩).1 =
      ⟨"c1", true, "Pong! Device is responsive", 0⟩ ∧
    lookupTimes (execute_command ⟨.ok (), .ok (), .ok "info"⟩ CommandExecutor.init
        ⟨true, [], 10000⟩ 60 0 none
        ⟨.ping, "c1", "mallory", 0, ""⟩).2.1.rate_limiter.commands "mallory" = [60] ∧
    ((execute_command ⟨.ok (), .ok (), .ok "info"⟩ CommandExecutor.init ⟨true, [], 10000⟩
        60 0 none ⟨.ping, "c1", "mallory", 0, ""⟩).2.1.history.map Prod.fst) = ["c1"] := by
  refine ⟨by decide, ?_, ?_, ?_⟩ <;> rfl

end DeviceNotifier

namespace DeviceNotifier

/-! ## Claim C4 -/

/-- Claim C4: with the key initialized, the encrypted blob is a
12-byte nonce, then the ciphertext of the plaintext's length, then the
16-byte tag, and decrypt_data inverts encrypt_data, under the AEAD
library contract for AES-256-GCM (the seal output is 16 bytes longer
than the plaintext and opening a sealed ciphertext with the same key
and nonce returns the plaintext). -/
theorem c4_encrypt_decrypt_roundtrip
    (aeadSeal : List Nat → List Nat → List Nat → List Nat)
    (opn : List Nat → List Nat → List Nat → Option (List Nat))
    (key nonce data : List Nat)
    (hnonce : nonce.length = 12)
    (hlen : (aeadSeal key nonce data).length = data.length + 16)
    (hopen : opn key nonce (aeadSeal key nonce data) = some data) :
    ∃ ct tag, ct.length = data.length ∧ tag.length = 16 ∧
      encrypt_data aeadSeal (some key) nonce data = some (nonce ++ ct ++ tag) ∧
      decrypt_data opn (some key) (nonce ++ ct ++ tag) = some data := by
  refine ⟨(aeadSeal key nonce data).take data.length,
    (aeadSeal key nonce data).drop data.length, ?_, ?_, ?_, ?_⟩
  · rw [List.length_take]
    omega
  · rw [List.length_drop]
    omega
  · unfold encrypt_data
    rw [List.append_assoc, List.take_append_drop]
  · rw [List.append_assoc, List.take_append_drop]
    unfold decrypt_data
    rw [if_neg (by rw [List.length_append, hnonce, hlen]; omega)]
    have htake : (nonce ++ aeadSeal key nonce data).take 12 = nonce := by
      rw [← hnonce]
      exact List.take_left nonce _
    have hdrop : (nonce ++ aeadSeal key nonce data).drop 12 = aeadSeal key nonce data := by
      rw [← hnonce]
      exact List.drop_left nonce _
    rw [htake, hdrop]
    exact hopen

/-- Witness for c4_encrypt_decrypt_roundtrip: a toy AEAD that appends
a 16-byte zero tag and strips it on open, a 12-byte zero nonce and the
plaintext 1,2,3. -/
theorem c4_encrypt_decrypt_roundtrip_witness :
    (List.replicate 12 0 : List Nat).length = 12 ∧
    ((fun (_k _n d : List Nat) => d ++ List.replicate 16 0) (List.replicate 32 1)
        (List.replicate 12 0) [1, 2, 3]).length = List.length [1, 2, 3] + 16 ∧
    (∃ ct tag, List.length ct = List.length [1, 2, 3] ∧ List.length tag = 16 ∧
      encrypt_data (fun _k _n d => d ++ List.replicate 16 0)
          (some (List.replicate 32 1)) (List.replicate 12 0) [1, 2, 3] =
        some (List.replicate 12 0 ++ ct ++ tag) ∧
      decrypt_data
          (fun _k _n c =>
            if c.drop (c.length - 16) = List.replicate 16 0 then
              some (c.take (c.length - 16))
            else none)
          (some (List.replicate 32 1)) (List.replicate 12 0 ++ ct ++ tag) =
        some [1, 2, 3]) :=
  ⟨by decide, by decide,
   c4_encrypt_decrypt_roundtrip (fun _k _n d => d ++ List.replicate 16 0)
     (fun _k _n c =>
       if c.drop (c.length - 16) = List.replicate 16 0 then
         some (c.take (c.length - 16))
       else none)
     (List.replicate 32 1) (List.replicate 12 0) [1, 2, 3]
     (by decide) (by decide) (by decide)⟩

/-! ## Claim C10 -/

/-- Padded base64 renders every 3 input bytes (or final partial chunk)
as 4 characters. -/
theorem base64Chunks_length :
    ∀ bs : List Nat, (base64Chunks bs).length = 4 * ((bs.length + 2) / 3)
  | [] => by simp [base64Chunks]
  | [b0] => by simp [base64Chunks]
  | [b0, b1] => by simp [base64Chunks]
  | b0 :: b1 :: b2 :: rest => by
    simp only [base64Chunks, List.length_cons, base64Chunks_length rest]
    omega

/-- Claim C10: generate_secure_random_string over L random bytes (the
source draws exactly the requested number) produces base64 text of
length 4 * ceil(L / 3), which is at least L for every L including 0,
so the length-L prefix slice is always in bounds (no panic) and the
returned string has exactly L characters. -/
theorem c10_random_string_length (random_bytes : List Nat) :
    (base64Encode random_bytes).length = 4 * ((random_bytes.length + 2) / 3) ∧
    random_bytes.length ≤ (base64Encode random_bytes).length ∧
    ∃ s, generate_secure_random_string random_bytes random_bytes.length = some s ∧
      s.length = random_bytes.length := by
  have h1 : (base64Encode random_bytes).length = 4 * ((random_bytes.length + 2) / 3) :=
    base64Chunks_length random_bytes
  have h2 : random_bytes.length ≤ (base64Encode random_bytes).length := by
    rw [h1]
    omega
  refine ⟨h1, h2, ?_⟩
  unfold generate_secure_random_string
  simp only [if_pos h2]
  refine ⟨_, rfl, ?_⟩
  have hmk : (String.mk ((base64Encode random_bytes).take random_bytes.length)).length =
      ((base64Encode random_bytes).take random_bytes.length).length := rfl
  rw [hmk, List.length_take]
  omega

end DeviceNotifier
